import Mathlib

/-!
Verification development for the Kore / rustylens repository: shallow
embedding of the pods page event handling and age formatting
(`src/routes/pods/+page.svelte`), the cluster and settings stores
(`src/lib/stores/cluster.svelte.ts`, `src/lib/stores/settings.svelte.ts`),
and spec-modelled fragments of the Rust backend (cluster registry,
import/discovery) whose source is not part of the frontend tree.
-/

namespace Kore

/-! ## Data model of the pods page (`src/routes/pods/+page.svelte`)

The TypeScript interfaces `ContainerPort`, `EnvVar`, `VolumeMount`,
`ProbeInfo`, `ContainerInfo`, `VolumeInfo`, `PodCondition` and `Pod`
translated field by field; `?`-optional fields become `Option`,
`Record<string, string>` becomes an association list. -/

structure ContainerPort where
  name : Option String
  container_port : Nat
  host_port : Option Nat
  protocol : String
deriving DecidableEq, Repr

structure EnvVar where
  name : String
  value : Option String
  value_from : Option String
deriving DecidableEq, Repr

structure VolumeMount where
  name : String
  mount_path : String
  sub_path : Option String
  read_only : Bool
deriving DecidableEq, Repr

structure ProbeInfo where
  probe_type : String
  handler_type : String
  details : String
  initial_delay_seconds : Nat
  period_seconds : Nat
  timeout_seconds : Nat
  success_threshold : Nat
  failure_threshold : Nat
deriving DecidableEq, Repr

structure ContainerInfo where
  name : String
  image : String
  image_pull_policy : String
  ready : Bool
  restart_count : Nat
  state : String
  cpu_request : Option String
  cpu_limit : Option String
  memory_request : Option String
  memory_limit : Option String
  ports : List ContainerPort
  env : List EnvVar
  volume_mounts : List VolumeMount
  probes : List ProbeInfo
deriving DecidableEq, Repr

structure VolumeInfo where
  name : String
  volume_type : String
deriving DecidableEq, Repr

structure PodCondition where
  condition_type : String
  status : String
  reason : Option String
  message : Option String
  last_transition_time : Option String
deriving DecidableEq, Repr

structure Pod where
  name : String
  «namespace» : String
  status : String
  age : String
  containers : Nat
  restarts : Nat
  node : String
  qos : String
  controlled_by : String
  creation_timestamp : Option String
  labels : List (String × String)
  annotations : List (String × String)
  pod_ip : String
  host_ip : String
  service_account : String
  priority_class : String
  container_details : List ContainerInfo
  volumes : List VolumeInfo
  conditions : List PodCondition
deriving DecidableEq, Repr

/-- The key by which the `pod_event` listener identifies a pod: the
`Deleted` payload is only ever read at its `name` and `namespace` fields. -/
structure PodKey where
  name : String
  «namespace» : String
deriving DecidableEq, Repr

/-- The events delivered on the `pod_event` channel, as dispatched on
`payload.type` in the listener: `Restarted` carries a full snapshot,
`Added`/`Modified` carry one pod summary, `Deleted` carries the key. -/
inductive PodEvent where
  | restarted (payload : List Pod)
  | added (payload : Pod)
  | modified (payload : Pod)
  | deleted (payload : PodKey)
deriving DecidableEq, Repr

/-- `p.name === newPod.name && p.namespace === newPod.namespace`, the
predicate passed to `findIndex` and to `filter` in the listener. -/
def podKeyMatches (p : Pod) (name ns : String) : Bool :=
  p.name == name && p.«namespace» == ns

/-- JavaScript `Array.prototype.findIndex`: index of the first element
satisfying `f`, or `-1` when none does. -/
def findIndexJs (f : Pod → Bool) : List Pod → Int
  | [] => -1
  | p :: rest =>
    if f p then 0
    else
      let r := findIndexJs f rest
      if r < 0 then -1 else r + 1

/-- The `Added`/`Modified` branch of the listener:
`const idx = pods.findIndex(...); if (idx >= 0) pods[idx] = newPod; else pods.push(newPod)`. -/
def upsertPod (pods : List Pod) (newPod : Pod) : List Pod :=
  let idx := findIndexJs (fun p => podKeyMatches p newPod.name newPod.«namespace») pods
  if idx ≥ 0 then pods.set idx.toNat newPod else pods ++ [newPod]

/-- The `pod_event` listener body (lines 163–181 of the pods page): one
delivered event transforms the `pods` state. -/
def applyPodEvent (pods : List Pod) (e : PodEvent) : List Pod :=
  match e with
  | .restarted payload => payload
  | .added newPod => upsertPod pods newPod
  | .modified newPod => upsertPod pods newPod
  | .deleted deletedPod =>
    pods.filter (fun p => !(p.name == deletedPod.name && p.«namespace» == deletedPod.«namespace»))

/-! ## Age formatting (`formatAge`, pods page lines 244–259)

`new Date(ts).getTime()` is platform date parsing; the embedding takes the
already-parsed epoch-millisecond value (`Option Int`, `none` for the
`undefined` timestamp). `Math.max(0, now - created)` is `Int.toNat`;
`Math.floor` of a nonnegative quotient is natural division. -/

def formatAge (creationTimestamp : Option Int) (now : Int) : String :=
  match creationTimestamp with
  | none => "-"
  | some created =>
    let diff : Nat := (now - created).toNat
    let seconds := diff / 1000
    let minutes := seconds / 60
    let hours := minutes / 60
    let days := hours / 24
    if days > 0 then toString days ++ "d"
    else if hours > 0 then toString hours ++ "h"
    else if minutes > 0 then toString minutes ++ "m"
    else toString seconds ++ "s"

/-- Stated from the spec's words, for comparison with `formatAge`: bucket
elapsed seconds as seconds while `< 60`, minutes while `< 3600`, hours
while `< 86400`, else days, floor division at each step. -/
def ageBucketSpec (s : Nat) : String :=
  if s < 60 then toString s ++ "s"
  else if s < 3600 then toString (s / 60) ++ "m"
  else if s < 86400 then toString (s / 3600) ++ "h"
  else toString (s / 86400) ++ "d"

/-! ## Backend commands issued by the pods page

`startWatch` (pods page lines 131–159) invokes `list_pods` then
`start_pod_watch` for the active (context, namespace) tuple; the
context-switch `$effect` (lines 200–208) re-runs `startWatch` when both
are truthy.  `stop_pod_watch` is in the command vocabulary (the spec's
`stop_watch`) so that its absence from the emitted sequences is
expressible. -/

inductive BackendCommand where
  | listPods (contextName ns : String)
  | startPodWatch (contextName ns : String)
  | stopPodWatch (contextName ns : String)
deriving DecidableEq, Repr

/-- `startWatch`: returns early when `clusterStore.active` is falsy
(the empty string), otherwise invokes `list_pods` then `start_pod_watch`. -/
def startWatchCommands (active activeNamespace : String) : List BackendCommand :=
  if active == "" then []
  else [.listPods active activeNamespace, .startPodWatch active activeNamespace]

/-- The `$effect` on context/namespace change:
`if (clusterStore.active && clusterStore.activeNamespace) startWatch()`.
No stop command is issued before the new watch is spawned. -/
def contextSwitchCommands (active activeNamespace : String) : List BackendCommand :=
  if !(active == "") && !(activeNamespace == "") then
    startWatchCommands active activeNamespace
  else []

def isStopCommand : BackendCommand → Bool
  | .stopPodWatch _ _ => true
  | _ => false

/-! ## ClusterStore (`src/lib/stores/cluster.svelte.ts`)

State fields of the store class.  `invoke` results are passed in as
parameters: `refresh` receives the value resolved by `list_contexts`
(`Option` for JavaScript null-ness, checked by `contexts && ...`), and
`fetchNamespaces` receives the outcome of `list_namespaces`
(`Except` models the try/catch around the call). -/

structure ClusterStoreState where
  active : String
  list : List String
  namespaces : List String
  activeNamespace : String
  loading : Bool
deriving DecidableEq, Repr

/-- Lexicographic Bool comparison of char lists by code point, the order
JavaScript default `Array.prototype.sort` applies to strings. -/
def charListLe : List Char → List Char → Bool
  | [], _ => true
  | _ :: _, [] => false
  | a :: as, b :: bs =>
    if a.toNat < b.toNat then true
    else if b.toNat < a.toNat then false
    else charListLe as bs

def strLeJs (a b : String) : Bool := charListLe a.data b.data

/-- JavaScript `Array.prototype.sort()` on an array of strings: a stable
sort under the default lexicographic comparator. -/
def jsSortStrings (l : List String) : List String :=
  List.insertionSort (fun a b => strLeJs a b) l

def fallbackNamespaces : List String := ["default", "kube-system", "kube-public"]

/-- `ClusterStore.fetchNamespaces`: early-returns when `active` is falsy;
on success stores the sorted namespaces and resets `activeNamespace` to
"all" when the current one is neither "all" nor in the new list; on
failure stores the hardcoded fallback list. -/
def fetchNamespaces (st : ClusterStoreState) (result : Except String (List String)) :
    ClusterStoreState :=
  if st.active == "" then st
  else
    match result with
    | .ok nss =>
      let st1 := { st with namespaces := jsSortStrings nss }
      if !(st1.namespaces.contains st1.activeNamespace) && !(st1.activeNamespace == "all") then
        { st1 with activeNamespace := "all" }
      else st1
    | .error _ => { st with namespaces := fallbackNamespaces }

/-- `ClusterStore.refresh`: when `list_contexts` resolves to a non-empty
list, store it, reset `active` to the first element if it was falsy or no
longer present, then fetch namespaces; otherwise clear the list.
`loading` is set in a try/finally around the body. -/
def refresh (st : ClusterStoreState) (contexts : Option (List String))
    (nsResult : Except String (List String)) : ClusterStoreState :=
  let st0 := { st with loading := true }
  let st' :=
    match contexts with
    | some cs =>
      if cs.length > 0 then
        let st1 := { st0 with list := cs }
        let st2 :=
          if st1.active == "" || !(st1.list.contains st1.active) then
            { st1 with active := st1.list.headD "" }
          else st1
        fetchNamespaces st2 nsResult
      else { st0 with list := [] }
    | none => { st0 with list := [] }
  { st' with loading := false }

/-! ## SettingsStore (`src/lib/stores/settings.svelte.ts`)

`localStorage.getItem` and `JSON.parse` are platform functions; the
constructor's input is modelled as `Option (Except String StoredAppSettings)`:
`none` when no 'app-settings' item is stored, `some (.error _)` when the
stored string is not valid JSON (the caught exception), `some (.ok p)`
when it parses to an object whose recognized keys are `p`'s `some`
fields.  `{...this.value, ...parsed}` keeps a default exactly when the
key is absent from the parsed object. -/

inductive Theme where
  | kore | koreLight | rusty | rustyLight | dracula | alucard
deriving DecidableEq, Repr

structure Settings where
  theme : Theme
  refreshInterval : Int
deriving DecidableEq, Repr

def defaultSettings : Settings := { theme := .kore, refreshInterval := 5000 }

structure StoredAppSettings where
  theme : Option Theme
  refreshInterval : Option Int
deriving DecidableEq, Repr

/-- The object spread `{...this.value, ...parsed}`. -/
def mergeSettings (base : Settings) (parsed : StoredAppSettings) : Settings :=
  { theme := parsed.theme.getD base.theme
    refreshInterval := parsed.refreshInterval.getD base.refreshInterval }

/-- The `SettingsStore` constructor: start from the defaults; if a stored
value exists and parses, merge it over the defaults; a parse failure is
caught and leaves the defaults in place. -/
def initSettings (stored : Option (Except String StoredAppSettings)) : Settings :=
  match stored with
  | none => defaultSettings
  | some (.error _) => defaultSettings
  | some (.ok parsed) => mergeSettings defaultSettings parsed

/-! ## Spec-modelled Rust backend

The Rust backend crate (`src-tauri/src/cluster_manager.rs`,
`import.rs`, `input_validation.rs`) is not part of the frontend source
tree; only its callers and its test inventory are.  The definitions below
are therefore modelled from the specification's words, as their doc
comments state. -/

/-- Trimming a string of leading and trailing whitespace, stated over the
character list so that it is kernel-executable (Lean's `String.trim`
does not reduce). -/
def trimString (s : String) : String :=
  ⟨((s.data.dropWhile Char.isWhitespace).reverse.dropWhile Char.isWhitespace).reverse⟩

/-- Modelled from the spec: the tag normalization applied by the Cluster
Registry's `add` and `update` (missing `input_validation.rs`): "tags
(trim each, drop empty, deduplicate preserving first-seen order)". -/
def normalizeTags (tags : List String) : List String :=
  (((tags.map trimString).filter (fun t => !(t == ""))).foldl
    (fun acc t => if acc.contains t then acc else acc ++ [t]) [])

inductive AddClusterError where
  | validation (msg : String)
  | importError (msg : String)
deriving DecidableEq, Repr

/-- Modelled from the spec: input validation for `add` (missing
`input_validation.rs`): "validates name (trim, non-empty, max length),
description (max length)".  The spec leaves the numeric bounds
unspecified, so they are parameters. -/
def validateInput (maxName maxDesc : Nat) (name : String) (description : Option String) :
    Except String String :=
  let trimmed := trimString name
  if trimmed == "" then .error "name must not be empty"
  else if trimmed.length > maxName then .error "name too long"
  else
    match description with
    | some d => if d.length > maxDesc then .error "description too long" else .ok trimmed
    | none => .ok trimmed

/-- The Cluster registry row (spec §3): identifier, display attributes,
isolated credential file path, creation and last-accessed timestamps. -/
structure Cluster where
  id : String
  name : String
  contextName : String
  kubeconfigPath : String
  icon : Option String
  description : Option String
  tags : List String
  createdAt : Int
  lastAccessed : Int
deriving DecidableEq, Repr

/-- Persistent state touched by `add_cluster` (spec §6): the durable
table of Cluster rows and the directory of isolated credential files. -/
structure RegistryState where
  rows : List Cluster
  credFiles : List String
deriving DecidableEq, Repr

/-- Modelled from the spec: `add_cluster` of the missing
`cluster_manager.rs`/`import.rs`: validate the input, invoke Credential
Store extraction, and persist the row with both timestamps set to now.
The extraction outcome (`.ok isolatedPath` or `.error msg`) and the
generated identifier and clock are parameters.  Atomicity per spec §7:
an extraction failure returns `ImportError` with the persistent state
unchanged — no row is added and the partially-written credential file is
cleaned up, so it does not appear in the resulting state either. -/
def add_cluster (maxName maxDesc : Nat) (st : RegistryState)
    (name contextName : String) (icon description : Option String) (tags : List String)
    (newId : String) (now : Int) (extractResult : Except String String) :
    RegistryState × Except AddClusterError Cluster :=
  match validateInput maxName maxDesc name description with
  | .error msg => (st, .error (.validation msg))
  | .ok trimmedName =>
    match extractResult with
    | .error msg => (st, .error (.importError msg))
    | .ok isolatedPath =>
      let c : Cluster :=
        { id := newId, name := trimmedName, contextName, kubeconfigPath := isolatedPath,
          icon, description, tags := normalizeTags tags, createdAt := now, lastAccessed := now }
      ({ rows := st.rows ++ [c], credFiles := st.credFiles ++ [isolatedPath] }, .ok c)

/-- The partial update accepted by the registry's `update` (spec §4.3):
only the supplied fields are applied. -/
structure ClusterPatch where
  name : Option String
  icon : Option (Option String)
  description : Option (Option String)
  tags : Option (List String)
deriving DecidableEq, Repr

/-- Modelled from the spec: `update_cluster` of the missing
`cluster_manager.rs`: "applies only the supplied fields
(name/icon/description/tags), revalidated as in `add`; does not alter
last-accessed". -/
def update_cluster (maxName maxDesc : Nat) (st : RegistryState) (id : String)
    (patch : ClusterPatch) : RegistryState × Except AddClusterError Cluster :=
  match st.rows.find? (fun c => c.id == id) with
  | none => (st, .error (.validation "cluster not found"))
  | some c =>
    match validateInput maxName maxDesc (patch.name.getD c.name)
        ((patch.description.getD c.description)) with
    | .error msg => (st, .error (.validation msg))
    | .ok trimmedName =>
      let c' : Cluster :=
        { c with
          name := trimmedName
          icon := patch.icon.getD c.icon
          description := patch.description.getD c.description
          tags := (patch.tags.map normalizeTags).getD c.tags }
      ({ st with rows := st.rows.map (fun r => if r.id == id then c' else r) }, .ok c')

/-- The transient discovery result (spec §3), fields as in the frontend's
`DiscoveredContext` interface (`ClusterImportModal.svelte`). -/
structure DiscoveredContext where
  context_name : String
  cluster_name : String
  user_name : String
  «namespace» : Option String
  source_file : String
deriving DecidableEq, Repr

/-- Modelled from the spec: a node of the scanned directory tree for
`discoverInFolder` of the missing `import.rs`.  A regular file carries
the outcome of parsing it (`.ok` with its discovered contexts or
`.error` with the recorded message); a directory carries its entries. -/
inductive FsEntry where
  | file (parse : Except String (List DiscoveredContext))
  | dir (entries : List FsEntry)

/-- Modelled from the spec: the recursive walk of `discoverInFolder`
(missing `import.rs`): collect contexts from every parseable file,
record the error of every file that fails to parse, and recurse into
subdirectories while depth remains. -/
def walkEntry (depth : Nat) (e : FsEntry) : List DiscoveredContext × List String :=
  match e with
  | .file (.ok ctxs) => (ctxs, [])
  | .file (.error msg) => ([], [msg])
  | .dir entries =>
    match depth with
    | 0 => ([], [])
    | d + 1 =>
      (entries.map (fun e2 => walkEntry d e2)).foldl
        (fun acc r => (acc.1 ++ r.1, acc.2 ++ r.2)) ([], [])

/-- Modelled from the spec: `discoverInFolder(root, maxDepth)` of the
missing `import.rs`: fails only when the root itself is missing or
unreadable (`none`); otherwise scans the root's entries up to `maxDepth`
and succeeds with the discovered contexts and the recorded per-file
errors — an empty directory yields an empty (successful) result. -/
def discoverInFolder (root : Option (List FsEntry)) (maxDepth : Nat) :
    Except String (List DiscoveredContext × List String) :=
  match root with
  | none => .error "root is missing or unreadable"
  | some entries =>
    .ok ((entries.map (fun e => walkEntry maxDepth e)).foldl
      (fun acc r => (acc.1 ++ r.1, acc.2 ++ r.2)) ([], []))

/-! ## Concrete fixtures used by witnesses -/

def samplePod (n ns : String) : Pod :=
  { name := n, «namespace» := ns, status := "Running", age := "1m", containers := 1,
    restarts := 0, node := "node-1", qos := "BestEffort", controlled_by := "ReplicaSet",
    creation_timestamp := none, labels := [], annotations := [], pod_ip := "10.0.0.1",
    host_ip := "192.168.1.1", service_account := "default", priority_class := "",
    container_details := [], volumes := [], conditions := [] }

def samplePodA : Pod := samplePod "web-1" "default"

def samplePodB : Pod := samplePod "web-2" "kube-system"

/-! ## Theorems -/

theorem ageBucket_of_divs (s : Nat) :
    (if s / 60 / 60 / 24 > 0 then toString (s / 60 / 60 / 24) ++ "d"
     else if s / 60 / 60 > 0 then toString (s / 60 / 60) ++ "h"
     else if s / 60 > 0 then toString (s / 60) ++ "m"
     else toString s ++ "s") = ageBucketSpec s := by
  have h36 : s / 60 / 60 = s / 3600 := by
    rw [Nat.div_div_eq_div_mul]
  have h864 : s / 3600 / 24 = s / 86400 := by
    rw [Nat.div_div_eq_div_mul]
  rw [h36, h864]
  unfold ageBucketSpec
  rcases Nat.lt_or_ge s 60 with h1 | h1
  · rw [if_pos (by omega : s < 60)]
    rw [if_neg (by simp [Nat.div_eq_of_lt (by omega : s < 86400)]),
      if_neg (by simp [Nat.div_eq_of_lt (by omega : s < 3600)]),
      if_neg (by simp [Nat.div_eq_of_lt h1])]
  · rcases Nat.lt_or_ge s 3600 with h2 | h2
    · rw [if_neg (by omega : ¬ s < 60), if_pos h2]
      rw [if_neg (by simp [Nat.div_eq_of_lt (by omega : s < 86400)]),
        if_neg (by simp [Nat.div_eq_of_lt h2]),
        if_pos (Nat.div_pos h1 (by norm_num))]
    · rcases Nat.lt_or_ge s 86400 with h3 | h3
      · rw [if_neg (by omega : ¬ s < 60), if_neg (by omega : ¬ s < 3600), if_pos h3]
        rw [if_neg (by simp [Nat.div_eq_of_lt h3]),
          if_pos (Nat.div_pos h2 (by norm_num))]
      · rw [if_neg (by omega : ¬ s < 60), if_neg (by omega : ¬ s < 3600),
          if_neg (by omega : ¬ s < 86400)]
        rw [if_pos (Nat.div_pos h3 (by norm_num))]

/-- C1: for every creation timestamp and evaluation instant, `formatAge`
clamps negative elapsed time to zero and buckets the elapsed whole
seconds by floor division — seconds below 60, minutes below 3600, hours
below 86400, else days; the listed boundary inputs render as "0s",
"59s", "1m", "59m", "1h", "23h", "1d", and a future timestamp renders
as "0s". -/
theorem formatAge_spec :
    (∀ created now : Int,
      formatAge (some created) now = ageBucketSpec ((now - created).toNat / 1000))
    ∧ formatAge (some 0) 0 = "0s"
    ∧ formatAge (some 0) 59000 = "59s"
    ∧ formatAge (some 0) 60000 = "1m"
    ∧ formatAge (some 0) 3599000 = "59m"
    ∧ formatAge (some 0) 3600000 = "1h"
    ∧ formatAge (some 0) 86399000 = "23h"
    ∧ formatAge (some 0) 86400000 = "1d"
    ∧ formatAge (some 5000) 0 = "0s" := by
  refine ⟨?_, by decide, by decide, by decide, by decide, by decide, by decide, by decide,
    by decide⟩
  intro created now
  show (if (now - created).toNat / 1000 / 60 / 60 / 24 > 0 then _ else _) = _
  exact ageBucket_of_divs ((now - created).toNat / 1000)

/-- C2: a delivered `Restarted(full_snapshot)` event replaces the
consumer's entire pod view with the snapshot payload: the resulting view
is the snapshot itself, so an element of the previous view survives only
if it is in the snapshot. -/
theorem restarted_replaces_view (pods snapshot : List Pod) :
    applyPodEvent pods (.restarted snapshot) = snapshot
    ∧ (∀ p : Pod, p ∈ applyPodEvent pods (.restarted snapshot) ↔ p ∈ snapshot) := by
  exact ⟨rfl, fun p => Iff.rfl⟩

theorem findIndexJs_neg_one_or_nonneg (f : Pod → Bool) (l : List Pod) :
    findIndexJs f l = -1 ∨ 0 ≤ findIndexJs f l := by
  induction l with
  | nil => left; rfl
  | cons p rest ih =>
    by_cases hp : f p
    · right; simp [findIndexJs, hp]
    · rcases ih with h | h
      · left; simp [findIndexJs, hp, h]
      · right
        simp only [findIndexJs, hp, Bool.false_eq_true, if_false]
        rw [if_neg (by omega)]
        omega

theorem upsertPod_nil (p : Pod) : upsertPod [] p = [p] := by
  simp [upsertPod, findIndexJs]

theorem upsertPod_cons (q : Pod) (rest : List Pod) (p : Pod) :
    upsertPod (q :: rest) p =
      if podKeyMatches q p.name p.«namespace» then p :: rest
      else q :: upsertPod rest p := by
  by_cases hq : podKeyMatches q p.name p.«namespace»
  · rw [if_pos hq]
    simp [upsertPod, findIndexJs, hq]
  · rw [if_neg hq]
    unfold upsertPod
    rcases findIndexJs_neg_one_or_nonneg
        (fun r => podKeyMatches r p.name p.«namespace») rest with h | h
    · simp only [findIndexJs, hq, Bool.false_eq_true, if_false, h]
      norm_num
    · have harg : findIndexJs (fun r => podKeyMatches r p.name p.«namespace») (q :: rest) =
          findIndexJs (fun r => podKeyMatches r p.name p.«namespace») rest + 1 := by
        simp only [findIndexJs, hq, Bool.false_eq_true, if_false]
        rw [if_neg (by omega)]
      rw [harg, if_pos (by omega), if_pos h]
      have : (findIndexJs (fun r => podKeyMatches r p.name p.«namespace») rest + 1).toNat =
          (findIndexJs (fun r => podKeyMatches r p.name p.«namespace») rest).toNat + 1 := by
        omega
      rw [this, List.set_cons_succ]

theorem podKeyMatches_self (p : Pod) : podKeyMatches p p.name p.«namespace» = true := by
  simp [podKeyMatches]

theorem filter_upsertPod_key (pods : List Pod) (p : Pod)
    (h : (pods.filter (fun q => podKeyMatches q p.name p.«namespace»)).length ≤ 1) :
    (upsertPod pods p).filter (fun q => podKeyMatches q p.name p.«namespace») = [p] := by
  induction pods with
  | nil =>
    rw [upsertPod_nil]
    simp [List.filter, podKeyMatches_self]
  | cons q rest ih =>
    rw [upsertPod_cons]
    by_cases hq : podKeyMatches q p.name p.«namespace»
    · rw [if_pos hq]
      have hrest : rest.filter (fun q => podKeyMatches q p.name p.«namespace») = [] := by
        simp only [List.filter_cons, hq, if_pos, List.length_cons] at h
        exact List.length_eq_zero.mp (by omega)
      simp only [List.filter_cons, podKeyMatches_self, if_pos, hrest]
    · rw [if_neg hq]
      simp only [List.filter_cons, hq, Bool.false_eq_true, if_false] at h ⊢
      exact ih h

theorem filter_upsertPod_other (pods : List Pod) (p : Pod) :
    (upsertPod pods p).filter (fun q => !(podKeyMatches q p.name p.«namespace»)) =
      pods.filter (fun q => !(podKeyMatches q p.name p.«namespace»)) := by
  induction pods with
  | nil =>
    rw [upsertPod_nil]
    simp [List.filter, podKeyMatches_self]
  | cons q rest ih =>
    rw [upsertPod_cons]
    by_cases hq : podKeyMatches q p.name p.«namespace»
    · rw [if_pos hq]
      simp only [List.filter_cons, podKeyMatches_self, hq, Bool.not_true,
        Bool.false_eq_true, if_false]
    · rw [if_neg hq]
      simp only [List.filter_cons, hq, Bool.not_false, if_pos, ih]

/-- C3: after a delivered `Added` or `Modified` event on a view holding
at most one entry for the object's (name, namespace) key, the view holds
exactly the delivered summary at that key and every entry at another key
is unchanged; after a `Deleted` event the view holds no entry with the
deleted key and is exactly the previous view restricted to the other
keys. -/
theorem event_updates_view (pods : List Pod) (p : Pod) (k : PodKey)
    (h : (pods.filter (fun q => podKeyMatches q p.name p.«namespace»)).length ≤ 1) :
    ((applyPodEvent pods (.added p)).filter
        (fun q => podKeyMatches q p.name p.«namespace») = [p])
    ∧ ((applyPodEvent pods (.modified p)).filter
        (fun q => podKeyMatches q p.name p.«namespace») = [p])
    ∧ ((applyPodEvent pods (.added p)).filter
        (fun q => !(podKeyMatches q p.name p.«namespace»)) =
      pods.filter (fun q => !(podKeyMatches q p.name p.«namespace»)))
    ∧ ((applyPodEvent pods (.modified p)).filter
        (fun q => !(podKeyMatches q p.name p.«namespace»)) =
      pods.filter (fun q => !(podKeyMatches q p.name p.«namespace»)))
    ∧ ((applyPodEvent pods (.deleted k)).filter
        (fun q => podKeyMatches q k.name k.«namespace») = [])
    ∧ (applyPodEvent pods (.deleted k) =
      pods.filter (fun q => !(podKeyMatches q k.name k.«namespace»))) := by
  refine ⟨filter_upsertPod_key pods p h, filter_upsertPod_key pods p h,
    filter_upsertPod_other pods p, filter_upsertPod_other pods p, ?_, ?_⟩
  · show (pods.filter _).filter _ = []
    rw [List.filter_filter]
    apply List.filter_eq_nil_iff.mpr
    intro q _
    simp [podKeyMatches]
  · rfl

/-- C4 counterexample: switching the active context to ("prod", "all")
while a watch is live emits `start_pod_watch` for the new tuple but no
stop command at all, refuting the claim that `stop_watch` is explicitly
invoked on the previous subscription before the new watch starts. -/
theorem context_switch_no_stop_counterexample :
    ((contextSwitchCommands "prod" "all").any
        (fun c => c == .startPodWatch "prod" "all") = true)
    ∧ ((contextSwitchCommands "prod" "all").any isStopCommand = false) := by
  exact ⟨by decide, by decide⟩

/-- C4 amended: whenever the active context and namespace are both
non-empty after a change, the `$effect` re-runs `startWatch`, emitting
exactly `list_pods` followed by `start_pod_watch` for the new tuple; no
stop command is ever emitted for the previous subscription, whose
cleanup is left implicit to the backend. -/
theorem context_switch_spawns_without_stop (active ns : String)
    (h1 : active ≠ "") (h2 : ns ≠ "") :
    contextSwitchCommands active ns = [.listPods active ns, .startPodWatch active ns]
    ∧ ∀ c ∈ contextSwitchCommands active ns, isStopCommand c = false := by
  have heq : contextSwitchCommands active ns =
      [.listPods active ns, .startPodWatch active ns] := by
    unfold contextSwitchCommands startWatchCommands
    rw [if_pos, if_neg (by simpa using h1)]
    simp [h1, h2]
  refine ⟨heq, ?_⟩
  intro c hc
  rw [heq] at hc
  simp only [List.mem_cons, List.not_mem_nil, or_false] at hc
  rcases hc with rfl | rfl <;> rfl

/-- Witness for C4 amended at the concrete tuple ("prod", "all"). -/
theorem context_switch_spawns_without_stop_witness :
    ("prod" : String) ≠ "" ∧ ("all" : String) ≠ ""
    ∧ contextSwitchCommands "prod" "all" =
        [.listPods "prod" "all", .startPodWatch "prod" "all"] := by
  exact ⟨by decide, by decide,
    (context_switch_spawns_without_stop "prod" "all" (by decide) (by decide)).1⟩

/-- Witness for C3 at a concrete two-pod view. -/
theorem event_updates_view_witness :
    (([samplePodA, samplePodB].filter
        (fun q => podKeyMatches q samplePodA.name samplePodA.«namespace»)).length ≤ 1)
    ∧ ((applyPodEvent [samplePodA, samplePodB] (.added samplePodA)).filter
        (fun q => podKeyMatches q samplePodA.name samplePodA.«namespace») = [samplePodA]) := by
  exact ⟨by decide,
    (event_updates_view [samplePodA, samplePodB] samplePodA ⟨"x", "default"⟩ (by decide)).1⟩

/-- C5: `add_cluster` is atomic.  When validation passes, an extraction
failure makes the call fail with `ImportError` and leaves the persistent
registry state exactly as it was (no row, no credential file), while a
successful extraction persists both the row and its isolated credential
file together. -/
theorem add_cluster_atomic (maxName maxDesc : Nat) (st : RegistryState)
    (name contextName : String) (icon description : Option String) (tags : List String)
    (newId : String) (now : Int) (trimmedName : String)
    (hval : validateInput maxName maxDesc name description = .ok trimmedName) :
    (∀ msg, add_cluster maxName maxDesc st name contextName icon description tags
        newId now (.error msg) = (st, .error (.importError msg)))
    ∧ (∀ isolatedPath, ∃ c,
        add_cluster maxName maxDesc st name contextName icon description tags
            newId now (.ok isolatedPath) =
          ({ rows := st.rows ++ [c], credFiles := st.credFiles ++ [isolatedPath] }, .ok c)
        ∧ c ∈ (add_cluster maxName maxDesc st name contextName icon description tags
            newId now (.ok isolatedPath)).1.rows
        ∧ isolatedPath ∈ (add_cluster maxName maxDesc st name contextName icon description
            tags newId now (.ok isolatedPath)).1.credFiles) := by
  constructor
  · intro msg
    unfold add_cluster
    rw [hval]
  · intro isolatedPath
    refine ⟨{ id := newId, name := trimmedName, contextName := contextName,
              kubeconfigPath := isolatedPath, icon := icon, description := description,
              tags := normalizeTags tags, createdAt := now, lastAccessed := now },
      ?_, ?_, ?_⟩
    · unfold add_cluster
      rw [hval]
    · unfold add_cluster
      rw [hval]
      simp
    · unfold add_cluster
      rw [hval]
      simp

/-- Witness for C5 at concrete inputs with passing validation. -/
theorem add_cluster_atomic_witness :
    validateInput 100 500 " prod " none = .ok "prod"
    ∧ add_cluster 100 500 ⟨[], []⟩ " prod " "ctx" none none [] "id-1" 0
        (.error "no such context") = (⟨[], []⟩, .error (.importError "no such context")) := by
  exact ⟨by rfl,
    (add_cluster_atomic 100 500 ⟨[], []⟩ " prod " "ctx" none none [] "id-1" 0 "prod"
      (by rfl)).1 "no such context"⟩

theorem mem_dedupFoldl (l acc : List String) (t : String) :
    t ∈ l.foldl (fun acc t => if acc.contains t then acc else acc ++ [t]) acc ↔
      t ∈ acc ∨ t ∈ l := by
  induction l generalizing acc with
  | nil => simp
  | cons a l ih =>
    simp only [List.foldl_cons]
    by_cases ha : acc.contains a
    · rw [if_pos ha, ih]
      have : a ∈ acc := by simpa using ha
      constructor
      · rintro (h | h)
        · exact Or.inl h
        · exact Or.inr (List.mem_cons_of_mem a h)
      · rintro (h | h)
        · exact Or.inl h
        · rcases List.mem_cons.mp h with rfl | h
          · exact Or.inl this
          · exact Or.inr h
    · rw [if_neg ha, ih]
      simp only [List.mem_append, List.mem_singleton, List.mem_cons]
      tauto

theorem nodup_dedupFoldl (l : List String) (acc : List String) (hacc : acc.Nodup) :
    (l.foldl (fun acc t => if acc.contains t then acc else acc ++ [t]) acc).Nodup := by
  induction l generalizing acc with
  | nil => simpa
  | cons a l ih =>
    simp only [List.foldl_cons]
    by_cases ha : acc.contains a
    · rw [if_pos ha]
      exact ih acc hacc
    · rw [if_neg ha]
      apply ih
      rw [← List.concat_eq_append]
      exact List.Nodup.concat (by simpa using ha) hacc

theorem sublist_dedupFoldl (l acc : List String) :
    ∃ sub, l.foldl (fun acc t => if acc.contains t then acc else acc ++ [t]) acc =
      acc ++ sub ∧ sub.Sublist l := by
  induction l generalizing acc with
  | nil => exact ⟨[], by simp, List.nil_sublist []⟩
  | cons a l ih =>
    simp only [List.foldl_cons]
    by_cases ha : acc.contains a
    · rw [if_pos ha]
      obtain ⟨sub, heq, hsub⟩ := ih acc
      exact ⟨sub, heq, hsub.cons a⟩
    · rw [if_neg ha]
      obtain ⟨sub, heq, hsub⟩ := ih (acc ++ [a])
      exact ⟨a :: sub, by rw [heq, List.append_assoc]; rfl, hsub.cons₂ a⟩

/-- C6: `add` (and `update` when tags are supplied) stores the tag list
normalized: each tag trimmed, tags empty after trimming dropped, and
duplicates removed preserving first-seen order (the result is a
duplicate-free subsequence of the trimmed-and-filtered input containing
exactly its elements); `["b", "a", "b", " a "]` normalizes to
`["b", "a"]`. -/
theorem tags_normalized (maxName maxDesc : Nat) (st : RegistryState)
    (name contextName : String) (icon description : Option String)
    (tags : List String) (newId : String) (now : Int) (path : String)
    (id : String) (patch : ClusterPatch) (ts : List String)
    (hts : patch.tags = some ts) :
    normalizeTags ["b", "a", "b", " a "] = ["b", "a"]
    ∧ (normalizeTags tags).Nodup
    ∧ (normalizeTags tags).Sublist ((tags.map trimString).filter (fun t => !(t == "")))
    ∧ (∀ t, t ∈ normalizeTags tags ↔
        t ∈ (tags.map trimString).filter (fun t => !(t == "")))
    ∧ (∀ c, (add_cluster maxName maxDesc st name contextName icon description tags
        newId now (.ok path)).2 = .ok c → c.tags = normalizeTags tags)
    ∧ (∀ c, (update_cluster maxName maxDesc st id patch).2 = .ok c →
        c.tags = normalizeTags ts) := by
  refine ⟨by decide, nodup_dedupFoldl _ [] List.nodup_nil, ?_, ?_, ?_, ?_⟩
  · obtain ⟨sub, heq, hsub⟩ :=
      sublist_dedupFoldl ((tags.map trimString).filter (fun t => !(t == ""))) []
    unfold normalizeTags
    rw [heq]
    simpa using hsub
  · intro t
    unfold normalizeTags
    rw [mem_dedupFoldl]
    simp
  · intro c hc
    unfold add_cluster at hc
    cases hv : validateInput maxName maxDesc name description with
    | error m => rw [hv] at hc; simp at hc
    | ok tn =>
      rw [hv] at hc
      simp only [Except.ok.injEq] at hc
      rw [← hc]
  · intro c hc
    unfold update_cluster at hc
    split at hc
    · simp at hc
    · split at hc
      · simp at hc
      · simp only [Except.ok.injEq] at hc
        rw [← hc]
        simp [hts]

/-- Witness for C6: a concrete `update` with supplied tags. -/
theorem tags_normalized_witness :
    ({ name := none, icon := none, description := none,
       tags := some ["b", "a", "b", " a "] } : ClusterPatch).tags =
      some ["b", "a", "b", " a "]
    ∧ normalizeTags ["b", "a", "b", " a "] = ["b", "a"] := by
  exact ⟨rfl,
    (tags_normalized 100 500 ⟨[], []⟩ "n" "ctx" none none [] "id-1" 0 "p.yaml" "id-1"
      { name := none, icon := none, description := none,
        tags := some ["b", "a", "b", " a "] } ["b", "a", "b", " a "] rfl).1⟩

/-- C7: `discoverInFolder` distinguishes empty from inaccessible: a
missing/unreadable root is the only error; an existing directory with no
entries yields a successful empty result; scanning any existing tree
always succeeds; a file that fails to parse is skipped with its error
recorded while its siblings' contexts are still returned. -/
theorem discoverInFolder_spec :
    (∀ d, discoverInFolder none d = .error "root is missing or unreadable")
    ∧ (∀ d, discoverInFolder (some []) d = .ok ([], []))
    ∧ (∀ root d, ∃ r, discoverInFolder (some root) d = .ok r)
    ∧ (∀ d msg ctxs,
        discoverInFolder (some [.file (.error msg), .file (.ok ctxs)]) d =
          .ok (ctxs, [msg])) := by
  refine ⟨fun d => rfl, fun d => rfl, fun root d => ⟨_, rfl⟩, ?_⟩
  intro d msg ctxs
  simp [discoverInFolder, walkEntry]

theorem charListLe_total (a b : List Char) : charListLe a b = true ∨ charListLe b a = true := by
  induction a generalizing b with
  | nil => left; rfl
  | cons x xs ih =>
    cases b with
    | nil => right; rfl
    | cons y ys =>
      simp only [charListLe]
      rcases Nat.lt_trichotomy x.toNat y.toNat with h | h | h
      · left; simp [h]
      · rcases ih ys with h2 | h2 <;> [left; right] <;> simp [h, h2]
      · right; simp [h, Nat.lt_asymm h]

theorem charListLe_trans (a b c : List Char) (h1 : charListLe a b = true)
    (h2 : charListLe b c = true) : charListLe a c = true := by
  induction a generalizing b c with
  | nil => rfl
  | cons x xs ih =>
    cases b with
    | nil => simp [charListLe] at h1
    | cons y ys =>
      cases c with
      | nil => simp [charListLe] at h2
      | cons z zs =>
        simp only [charListLe] at h1 h2 ⊢
        by_cases hxy : x.toNat < y.toNat <;> by_cases hyz : y.toNat < z.toNat <;>
          by_cases hyx : y.toNat < x.toNat <;> by_cases hzy : z.toNat < y.toNat <;>
          first
            | omega
            | (rw [if_pos (by omega)])
            | (rw [if_neg hxy, if_neg hyx] at h1
               rw [if_neg hyz, if_neg hzy] at h2
               rw [if_neg (by omega), if_neg (by omega)]
               exact ih ys zs h1 h2)
            | (rw [if_neg hxy, if_pos hyx] at h1; exact absurd h1 (by simp))
            | (rw [if_neg hyz, if_pos hzy] at h2; exact absurd h2 (by simp))

theorem strLeJs_total (a b : String) : strLeJs a b = true ∨ strLeJs b a = true :=
  charListLe_total a.data b.data

theorem strLeJs_trans (a b c : String) (h1 : strLeJs a b = true) (h2 : strLeJs b c = true) :
    strLeJs a c = true :=
  charListLe_trans a.data b.data c.data h1 h2

theorem jsSortStrings_perm (l : List String) : (jsSortStrings l).Perm l :=
  List.perm_insertionSort _ l

theorem jsSortStrings_sorted (l : List String) :
    List.Sorted (fun a b => strLeJs a b = true) (jsSortStrings l) := by
  haveI : IsTotal String (fun a b => strLeJs a b = true) := ⟨strLeJs_total⟩
  haveI : IsTrans String (fun a b => strLeJs a b = true) := ⟨strLeJs_trans⟩
  exact List.sorted_insertionSort _ l

theorem fetchNamespaces_preserves (st : ClusterStoreState)
    (r : Except String (List String)) :
    (fetchNamespaces st r).active = st.active ∧ (fetchNamespaces st r).list = st.list ∧
      (fetchNamespaces st r).loading = st.loading := by
  unfold fetchNamespaces
  split
  · exact ⟨rfl, rfl, rfl⟩
  · cases r with
    | error e => exact ⟨rfl, rfl, rfl⟩
    | ok nss =>
      dsimp only
      split
      · exact ⟨rfl, rfl, rfl⟩
      · exact ⟨rfl, rfl, rfl⟩

/-- C10: `fetchNamespaces` never surfaces an error (it is a total state
transformer over both call outcomes): on success the namespace list is
replaced by the result sorted under the JavaScript string order, and
the active namespace is kept exactly when it is "all" or present in the
new list, otherwise reset to "all"; on failure the namespace list is
silently replaced by the hardcoded fallback and nothing else — in
particular the active namespace — changes. -/
theorem fetchNamespaces_spec (st : ClusterStoreState) (h : st.active ≠ "") :
    (∀ nss : List String,
      ((fetchNamespaces st (.ok nss)).namespaces.Perm nss)
      ∧ List.Sorted (fun a b => strLeJs a b = true) (fetchNamespaces st (.ok nss)).namespaces
      ∧ ((fetchNamespaces st (.ok nss)).activeNamespace =
          if st.activeNamespace = "all" ∨ st.activeNamespace ∈ nss then st.activeNamespace
          else "all")
      ∧ (fetchNamespaces st (.ok nss)).active = st.active
      ∧ (fetchNamespaces st (.ok nss)).list = st.list)
    ∧ (∀ e, fetchNamespaces st (.error e) = { st with namespaces := fallbackNamespaces }) := by
  have h0 : ¬ ((st.active == "") = true) := by simpa using h
  constructor
  · intro nss
    have hmem : ∀ a : String, a ∈ jsSortStrings nss ↔ a ∈ nss := fun a =>
      (jsSortStrings_perm nss).mem_iff
    refine ⟨?_, ?_, ?_, (fetchNamespaces_preserves st (.ok nss)).1,
      (fetchNamespaces_preserves st (.ok nss)).2.1⟩
    · have : (fetchNamespaces st (.ok nss)).namespaces = jsSortStrings nss := by
        unfold fetchNamespaces
        rw [if_neg h0]
        dsimp only
        split <;> rfl
      rw [this]
      exact jsSortStrings_perm nss
    · have : (fetchNamespaces st (.ok nss)).namespaces = jsSortStrings nss := by
        unfold fetchNamespaces
        rw [if_neg h0]
        dsimp only
        split <;> rfl
      rw [this]
      exact jsSortStrings_sorted nss
    · unfold fetchNamespaces
      rw [if_neg h0]
      dsimp only
      split
      · next hcond =>
        simp only [Bool.and_eq_true, Bool.not_eq_true'] at hcond
        rw [if_neg]
        push_neg
        constructor
        · intro hall
          have := hcond.2
          simp [hall] at this
        · intro hmem2
          have := hcond.1
          rw [← hmem st.activeNamespace] at hmem2
          simp [hmem2] at this
      · next hcond =>
        simp only [Bool.and_eq_true, Bool.not_eq_true', not_and_or] at hcond
        rw [if_pos]
        rcases hcond with hc | hc
        · right
          rw [← hmem st.activeNamespace]
          simp only [Bool.not_eq_false] at hc
          simpa using hc
        · left
          simpa using hc
  · intro e
    unfold fetchNamespaces
    rw [if_neg h0]

/-- Witness for C10 at a concrete store state. -/
theorem fetchNamespaces_spec_witness :
    ({ active := "prod", list := ["prod"], namespaces := [], activeNamespace := "all",
       loading := false } : ClusterStoreState).active ≠ ""
    ∧ fetchNamespaces
        { active := "prod", list := ["prod"], namespaces := [], activeNamespace := "all",
          loading := false } (.error "boom") =
      { active := "prod", list := ["prod"], namespaces := fallbackNamespaces,
        activeNamespace := "all", loading := false } := by
  exact ⟨by decide,
    (fetchNamespaces_spec
      { active := "prod", list := ["prod"], namespaces := [], activeNamespace := "all",
        loading := false } (by decide)).2 "boom"⟩

theorem headD_mem (l : List String) (h : l ≠ []) : l.headD "" ∈ l := by
  cases l with
  | nil => exact absurd rfl h
  | cons a l => exact List.mem_cons_self a l

/-- C8: after a completed `refresh` in which the backend returned a
non-empty context list, the stored list is that list and the active
context is an element of it: it is reset to the first element exactly
when it was unset or absent from the new list and kept otherwise; when
the backend returns an empty list, the list is cleared and the active
context is left unchanged. -/
theorem refresh_spec (st : ClusterStoreState) (contexts : List String)
    (nsResult : Except String (List String)) (hne : contexts ≠ []) :
    ((refresh st (some contexts) nsResult).list = contexts)
    ∧ ((refresh st (some contexts) nsResult).active ∈ contexts)
    ∧ (st.active = "" ∨ st.active ∉ contexts →
        (refresh st (some contexts) nsResult).active = contexts.headD "")
    ∧ (st.active ≠ "" ∧ st.active ∈ contexts →
        (refresh st (some contexts) nsResult).active = st.active)
    ∧ (∀ r, (refresh st (some []) r).list = []
        ∧ (refresh st (some []) r).active = st.active) := by
  have hlen : 0 < contexts.length := List.length_pos.mpr hne
  refine ⟨?_, ?_, ?_, ?_, fun r => ⟨rfl, rfl⟩⟩
  · unfold refresh
    dsimp only
    rw [if_pos hlen]
    split
    · rw [(fetchNamespaces_preserves _ nsResult).2.1]
    · rw [(fetchNamespaces_preserves _ nsResult).2.1]
  · unfold refresh
    dsimp only
    rw [if_pos hlen]
    split
    · rw [(fetchNamespaces_preserves _ nsResult).1]
      exact headD_mem contexts hne
    · next hcond =>
      rw [(fetchNamespaces_preserves _ nsResult).1]
      simp only [Bool.or_eq_true, Bool.not_eq_true', not_or] at hcond
      have := hcond.2
      simp only [Bool.not_eq_true, Bool.not_eq_false] at this
      simpa using this
  · intro hreset
    unfold refresh
    dsimp only
    rw [if_pos hlen]
    split
    · rw [(fetchNamespaces_preserves _ nsResult).1]
    · next hcond =>
      exfalso
      simp only [Bool.or_eq_true, Bool.not_eq_true', not_or] at hcond
      rcases hreset with h1 | h1
      · exact absurd (by simpa using h1) hcond.1
      · have := hcond.2
        simp only [Bool.not_eq_true, Bool.not_eq_false] at this
        exact h1 (by simpa using this)
  · intro hkeep
    unfold refresh
    dsimp only
    rw [if_pos hlen]
    split
    · next hcond =>
      exfalso
      rcases (Bool.or_eq_true _ _).mp hcond with h1 | h1
      · exact hkeep.1 (by simpa using h1)
      · simp only [Bool.not_eq_true'] at h1
        exact absurd hkeep.2 (by simpa using h1)
    · rw [(fetchNamespaces_preserves _ nsResult).1]

/-- Witness for C8 at a concrete store state and context list. -/
theorem refresh_spec_witness :
    (["ctx-a", "ctx-b"] : List String) ≠ []
    ∧ (refresh
        { active := "", list := [], namespaces := [], activeNamespace := "all",
          loading := false } (some ["ctx-a", "ctx-b"]) (.error "boom")).list =
      ["ctx-a", "ctx-b"] := by
  exact ⟨by decide,
    (refresh_spec
      { active := "", list := [], namespaces := [], activeNamespace := "all",
        loading := false } ["ctx-a", "ctx-b"] (.error "boom") (by decide)).1⟩

/-- C9: constructing the settings store is total over every storage
outcome: no stored value or a stored value that fails to parse leaves
the defaults (theme `kore`, refresh interval 5000); a parsed object is
merged over the defaults, each recognized key taking the stored value
when present and the default when absent. -/
theorem initSettings_spec :
    initSettings none = defaultSettings
    ∧ (∀ e, initSettings (some (.error e)) = defaultSettings)
    ∧ (∀ p, (initSettings (some (.ok p))).theme = p.theme.getD Theme.kore
        ∧ (initSettings (some (.ok p))).refreshInterval = p.refreshInterval.getD 5000)
    ∧ defaultSettings = { theme := Theme.kore, refreshInterval := 5000 } := by
  exact ⟨rfl, fun e => rfl, fun p => ⟨rfl, rfl⟩, rfl⟩

end Kore
